import Mathlib

/-!
Verification of the Prompt Studio timeline core (SceneGenerationStudio.tsx,
InteractiveTimeline.tsx) against its natural-language specification.

The TypeScript source is shallowly embedded here:
pure functions become Lean functions, React state updates become explicit
state transformations, and the component's event handlers become a step
relation on an explicit state type.  JavaScript numbers appearing in the
drag computation are modelled as rationals (ℚ) for the fractional pointer
arithmetic and as integers (ℤ) for the whole-second event bounds, matching
the values the code actually produces (Math.round yields integers).
-/

namespace PromptStudio

/-- JSON-like values stored in the `params` tree of SceneGenerationStudio:
strings, arrays of strings, and nested objects (modelled as association
lists in insertion order, matching JavaScript object key order). -/
inductive PVal where
  | str : String → PVal
  | list : List String → PVal
  | obj : List (String × PVal) → PVal
  deriving Repr

/-- TimelineEvent from src/prompts/types.ts.  The source field name `end`
is a Lean keyword, so it is written `«end»`. -/
structure TimelineEvent where
  id : String
  paramName : String
  paramPath : String
  paramLabel : String
  subjectId : Option String
  start : Int
  «end» : Int
  value : String
  deriving DecidableEq, Repr

/-- An event together with the lane computed by `calculateLayout`
(the source spreads the event and adds a `lane` field: `{ ...event, lane: i }`). -/
structure LaidOutEvent extends TimelineEvent where
  lane : Nat
  deriving DecidableEq, Repr

/-- Subject from src/prompts/types.ts: `id`, `name`, plus an index
signature `[key: string]: any` for the per-subject attribute values,
modelled as an association list. -/
structure Subject where
  id : String
  name : String
  attrs : List (String × PVal)
  deriving Repr

/-! ## Interval layout (InteractiveTimeline.tsx, calculateLayout, lines 534-555) -/

/-- Inner loop of `calculateLayout`: scan the `lanes` array of end times in
index order and place the event (with bounds `s`, `e`) into the first lane
whose end time is `≤ s`, updating that lane's end time to `e`; if none
qualifies, append a new lane.  Returns the chosen lane index and the
updated lanes array. -/
def placeInLanes (s e : Int) : List Int → Nat × List Int
  | [] => (0, [e])
  | l :: ls =>
    if l ≤ s then (0, e :: ls)
    else
      let r := placeInLanes s e ls
      (r.1 + 1, l :: r.2)

/-- The `for (const event of sortedEvents)` loop of `calculateLayout`,
accumulating the `layout` array and the `lanes` end-time array. -/
def layoutAux : List LaidOutEvent → List Int → List TimelineEvent → List LaidOutEvent × List Int
  | layout, lanes, [] => (layout, lanes)
  | layout, lanes, ev :: rest =>
    let r := placeInLanes ev.start ev.«end» lanes
    layoutAux (layout ++ [{ ev with lane := r.1 }]) r.2 rest

/-- calculateLayout (InteractiveTimeline.tsx lines 534-555): stable sort of
the events by ascending `start` (JavaScript `sort((a,b) => a.start - b.start)`
is stable), then greedy first-fit lane assignment; `totalLanes` is the
length of the lanes array. -/
def calculateLayout (allEvents : List TimelineEvent) :
    List LaidOutEvent × Nat :=
  let sortedEvents := allEvents.mergeSort (fun a b => a.start ≤ b.start)
  let r := layoutAux [] [] sortedEvents
  (r.1, r.2.length)

/-! ## Drag-reflow (InteractiveTimeline.tsx, handleMouseMove, lines 491-510) -/

/-- The drag state captured on mouse-down: the dragged event's id and the
pointer offset (in seconds) from the event's start edge. -/
structure DraggingEvent where
  id : String
  startOffset : ℚ
  deriving Repr

/-- Line 504 of InteractiveTimeline.tsx:
`Math.max(0, Math.min(newStart, duration - eventDuration))`. -/
def clampStart (duration eventDuration newStart : Int) : Int :=
  max 0 (min newStart (duration - eventDuration))

/-- handleMouseMove (InteractiveTimeline.tsx lines 491-510).  Returns the
event passed to `onEventUpdate`, or `none` when no update is emitted
(dragged event not found, or the clamped start equals the current start).
The fractional pointer position and captured offset are modelled as exact
rationals; `Math.round` is Mathlib's `round` (both are ⌊x + 1/2⌋). -/
def handleMouseMove (events : List TimelineEvent) (duration : Int)
    (dragging : DraggingEvent) (mouseX rectWidth : ℚ) :
    Option TimelineEvent :=
  let percent : ℚ := max 0 (min 1 (mouseX / rectWidth))
  match events.find? (fun ev => ev.id = dragging.id) with
  | none => none
  | some currentEvent =>
    let eventDuration := currentEvent.«end» - currentEvent.start
    let newStart : Int := round (percent * (duration : ℚ) - dragging.startOffset)
    let clampedStart := clampStart duration eventDuration newStart
    let newEnd := clampedStart + eventDuration
    if clampedStart ≠ currentEvent.start then
      some { currentEvent with start := clampedStart, «end» := newEnd }
    else
      none

/-! ## Parameter tree mutation (SceneGenerationStudio.tsx, handleParamChange, lines 213-229) -/

/-- Property lookup on a JavaScript object (association list, first match;
keys of reachable objects are unique). -/
def objGet : List (String × PVal) → String → Option PVal
  | [], _ => none
  | (k', v) :: rest, k => if k' = k then some v else objGet rest k

/-- Property assignment `o[k] = v`: replaces the value of an existing key
in place (JavaScript keeps the key's insertion position) or appends a new
key at the end. -/
def objSet : List (String × PVal) → String → PVal → List (String × PVal)
  | [], k, v => [(k, v)]
  | (k', v') :: rest, k, v =>
    if k' = k then (k, v) :: rest else (k', v') :: objSet rest k v

/-- `delete o[k]`: removes the property `k`.  JavaScript objects have
unique keys, so removing every matching entry of the association list is
the same operation. -/
def objDelete : List (String × PVal) → String → List (String × PVal)
  | [], _ => []
  | (k', v') :: rest, k =>
    if k' = k then objDelete rest k else (k', v') :: objDelete rest k

/-- The deletion condition of handleParamChange (line 222):
`!value || (Array.isArray(value) && value.length === 0) || value === ''`.
Empty strings are falsy; empty arrays are caught by the second disjunct;
objects are truthy and never deleted by this test. -/
def isEmptyValue : PVal → Bool
  | PVal.str s => s = ""
  | PVal.list l => l.isEmpty
  | PVal.obj _ => false

/-- The walk of handleParamChange (lines 216-227) on the deep copy: for
each intermediate key, `current[k] = current[k] || {}` (a falsy child —
only the empty string here — is replaced by a fresh object), then descend;
at the last key, delete the leaf when the value is empty, else assign it.
`none` models the strict-mode TypeError JavaScript raises when the walk
must assign a property onto a string primitive, and the unrepresentable
outcome of attaching named properties to an array object; no tree built by
this component reaches either case (intermediate nodes are only ever
created as plain objects). -/
def setPath : List (String × PVal) → List String → PVal → Option (List (String × PVal))
  | o, [], _ => some o
  | o, [k], v =>
    some (if isEmptyValue v then objDelete o k else objSet o k v)
  | o, k :: k2 :: rest, v =>
    match objGet o k with
    | some (PVal.obj child) =>
      (setPath child (k2 :: rest) v).map (fun c => objSet o k (PVal.obj c))
    | some (PVal.str s) =>
      if s = "" then
        (setPath [] (k2 :: rest) v).map (fun c => objSet o k (PVal.obj c))
      else if rest.isEmpty && isEmptyValue v then
        -- delete of a named property on a string primitive: a silent no-op
        some o
      else none
    | some (PVal.list _) =>
      if rest.isEmpty && isEmptyValue v then
        -- delete of an absent named property on an array object: a no-op
        some o
      else none
    | none =>
      (setPath [] (k2 :: rest) v).map (fun c => objSet o k (PVal.obj c))

/-- Reading a dot-path back out of the tree (models `params.camera.angle`
style access; a missing or non-object intermediate yields `none`). -/
def getPath : List (String × PVal) → List String → Option PVal
  | _, [] => none
  | o, [k] => objGet o k
  | o, k :: k2 :: rest =>
    match objGet o k with
    | some (PVal.obj child) => getPath child (k2 :: rest)
    | _ => none

/-- All intermediate nodes along the path are plain objects, missing, or
the falsy empty string — exactly the shapes for which the source walk
performs its documented create-on-demand behaviour.  Every tree this
component actually builds satisfies this for every UI path. -/
def pathIntermediatesOk : List (String × PVal) → List String → Bool
  | _, [] => true
  | _, [_] => true
  | o, k :: k2 :: rest =>
    match objGet o k with
    | some (PVal.obj child) => pathIntermediatesOk child (k2 :: rest)
    | some (PVal.str s) => s = ""
    | some (PVal.list _) => false
    | none => true

/-! ## Text projection (SceneGenerationStudio.tsx, lines 249-328) -/

/-- formatWildcard (lines 249-254): falsy values (the empty string) render
as `''`; a non-array renders as `String(val)` (for an object this is the
JavaScript `"[object Object]"`); an empty array also stringifies to `''`;
a singleton array renders as its element; longer arrays render as a
brace-joined alternation. -/
def formatWildcard : PVal → String
  | PVal.str s => s
  | PVal.list [] => ""
  | PVal.list [a] => a
  | PVal.list l => "\x7b" ++ String.intercalate "|" l ++ "\x7d"
  | PVal.obj _ => "[object Object]"

/-- `s.replace(/([A-Z])/g, ' $1')`: insert a space before each uppercase
character. -/
def spaceBeforeCaps (s : String) : String :=
  String.mk (s.data.foldr (fun c acc => if c.isUpper then ' ' :: c :: acc else c :: acc) [])

/-- `s.replace(/^./, str => str.toUpperCase())`: uppercase the first
character, if any. -/
def capitalizeFirst (s : String) : String :=
  match s.data with
  | [] => ""
  | c :: cs => String.mk (c.toUpper :: cs)

/-- JavaScript truthiness of a `PVal`: only the empty string is falsy
(arrays and objects, even empty ones, are truthy). -/
def pvalTruthy : PVal → Bool
  | PVal.str s => s ≠ ""
  | PVal.list _ => true
  | PVal.obj _ => true

/-- `Object.keys(v).length` for a `PVal`: characters of a string, indices
of an array, keys of an object. -/
def pvalKeyCount : PVal → Nat
  | PVal.str s => s.length
  | PVal.list l => l.length
  | PVal.obj o => o.length

/-- `Object.entries(v)` for a `PVal`: index/character pairs for strings
and arrays, key/value pairs for objects. -/
def pvalEntries : PVal → List (String × PVal)
  | PVal.str s => (s.data.enum).map (fun p => (toString p.1, PVal.str (String.mk [p.2])))
  | PVal.list l => (l.enum).map (fun p => (toString p.1, PVal.str p.2))
  | PVal.obj o => o

/-- buildSegment (lines 273-285): a `"\n\nTitle:"` header followed by one
`"\n  - name: value"` line per sub-parameter whose formatted value is
non-empty; the whole segment is dropped when no line was produced. -/
def buildSegment (categoryName : String) (subParams : List (String × PVal)) : String :=
  let title := capitalizeFirst (spaceBeforeCaps categoryName)
  let r := subParams.foldl
    (fun (acc : String × Bool) p =>
      let formattedValue := formatWildcard p.2
      if formattedValue ≠ "" then
        (acc.1 ++ "\n  - " ++ (spaceBeforeCaps p.1).toLower ++ ": " ++ formattedValue, true)
      else acc)
    ("\n\n" ++ title ++ ":", false)
  if r.2 then r.1 else ""

/-- The fixed category order of the text projection (line 302). -/
def promptOrder : List String :=
  ["directorNotes", "scene", "composition", "camera", "style", "audio", "technical"]

/-- The truthiness test `params.technical.negativeKeywords` from line 306
(optional property access on a non-object yields `undefined`, hence falsy). -/
def technicalHasNegative (params : List (String × PVal)) : Bool :=
  match objGet params "technical" with
  | some (PVal.obj t) =>
    match objGet t "negativeKeywords" with
    | some v => pvalTruthy v
    | none => false
  | _ => false

/-- One iteration of the category loop (lines 303-309): skip categories
that are absent, falsy or key-less; skip the whole `technical` category
when `params.technical.negativeKeywords` is truthy; otherwise append the
category's segment. -/
def categoryStep (params : List (String × PVal)) (acc : String) (category : String) : String :=
  match objGet params category with
  | some v =>
    if pvalTruthy v && pvalKeyCount v > 0 then
      if category = "technical" && technicalHasNegative params then acc
      else acc ++ buildSegment category (pvalEntries v)
    else acc
  | none => acc

/-- The category loop over an arbitrary category list. -/
def categoriesText (params : List (String × PVal)) (cats : List String) : String :=
  cats.foldl (categoryStep params) ""

/-- Section 2 of the text projection: the ordered general settings
(lines 301-309). -/
def generalSettingsText (params : List (String × PVal)) : String :=
  categoriesText params promptOrder

/-- Section 4 of the text projection (lines 321-324):
`if (params.rules?.negativeKeywords?.length > 0)` render
`"\n\nNegative Keywords: "` followed by the comma-joined list.  The guard
reads `params.rules`, not `params.technical`.  (A string value here would
make the source throw on `.join`; such a value is never stored.) -/
def rulesText (params : List (String × PVal)) : String :=
  match objGet params "rules" with
  | some (PVal.obj ro) =>
    match objGet ro "negativeKeywords" with
    | some (PVal.list l) =>
      if l.length > 0 then "\n\nNegative Keywords: " ++ String.intercalate ", " l
      else ""
    | _ => ""
  | _ => ""

/-! ## Studio state machine (SceneGenerationStudio.tsx, lines 181-247, 399-417) -/

/-- PromptType from src/prompts/types.ts. -/
inductive PromptType where
  | Image
  | Video
  | VideoWithSound
  deriving DecidableEq, Repr

/-- The component state that the claims concern: `promptType`, `subjects`,
`params` and `timeline` (lines 182-185).  `activeTab` and the
`animatedParams` UI toggles never influence these fields beyond gating
which buttons are rendered, and are omitted. -/
structure StudioState where
  promptType : PromptType
  subjects : List Subject
  params : List (String × PVal)
  timeline : List TimelineEvent

/-- The initial `useState` values (lines 182-185). -/
def initialState : StudioState :=
  { promptType := PromptType.Image, subjects := [], params := [], timeline := [] }

/-- removeSubject (lines 205-211): look the subject up by id; when found,
filter it out of the subject list and cascade-delete every timeline event
whose `subjectId` equals the removed subject's id.  Events with no
`subjectId` (`undefined !== id`) are kept. -/
def removeSubject (subjects : List Subject) (timeline : List TimelineEvent)
    (id : String) : List Subject × List TimelineEvent :=
  match subjects.find? (fun s => s.id = id) with
  | some subjectToRemove =>
    (subjects.filter (fun subj => subj.id ≠ id),
     timeline.filter (fun event => event.subjectId ≠ some subjectToRemove.id))
  | none => (subjects, timeline)

/-- `{ ...subj, [key]: value }` in updateSubject (line 202).  The source
only ever passes `key = 'name'` with a string (the name input) or a
sub-category key with an array value. -/
def subjectSetKey (s : Subject) (key : String) (value : PVal) : Subject :=
  if key = "name" then
    match value with
    | PVal.str nm => { s with name := nm }
    | _ => s
  else if key = "id" then s
  else { s with attrs := objSet s.attrs key value }

/-- updateSubject (lines 201-203). -/
def updateSubject (subjects : List Subject) (id key : String) (value : PVal) :
    List Subject :=
  subjects.map (fun subj => if subj.id = id then subjectSetKey subj key value else subj)

/-- The event constructed by addTimelineEvent (lines 231-242); the
generated id (`Date.now()`/`Math.random()`) is supplied by the caller. -/
def mkTimelineEvent (freshId paramPath paramLabel : String) (start «end» : Int)
    (value : String) (subjectContext : Option Subject) : TimelineEvent :=
  { id := freshId,
    paramPath := paramPath,
    paramName := match subjectContext with
      | some s => s.name ++ "." ++ paramLabel
      | none => paramLabel,
    paramLabel := paramLabel,
    subjectId := subjectContext.map (fun s => s.id),
    start := start, «end» := «end», value := value }

/-- addTimelineEvent (lines 231-242): refuse an empty value
(`if (!value) return`), otherwise append the new event. -/
def addTimelineEvent (timeline : List TimelineEvent) (freshId paramPath paramLabel : String)
    (start «end» : Int) (value : String) (subjectContext : Option Subject) :
    List TimelineEvent :=
  if value = "" then timeline
  else timeline ++ [mkTimelineEvent freshId paramPath paramLabel start «end» value subjectContext]

/-- One user-driven state transition of the studio.  Each constructor is
one handler of SceneGenerationStudio.tsx:
* `setPromptTypeStep` is the Prompt Type button (line 408) combined with
  the effect at line 199 that clears the timeline whenever the type
  becomes `'Image'`;
* `addEventStep` is the scrubber commit path (renderField line 354,
  addTimelineEvent lines 231-242), reachable only when `isAnimatable`
  holds, which requires `promptType !== 'Image'` (line 351) — the
  timeline and its scrubbers are not even rendered for Image (line 417);
* the remaining constructors are removeTimelineEvent (line 244),
  updateTimelineEvent (lines 245-247) — also the target of drag updates —
  removeSubject (lines 205-211), the Add Subject button (line 448),
  updateSubject (lines 201-203), handleParamChange (lines 213-229) and
  resetState (lines 191-196). -/
inductive Step : StudioState → StudioState → Prop where
  | setPromptTypeStep (s : StudioState) (t : PromptType) :
      Step s { s with promptType := t,
                      timeline := if t = PromptType.Image then [] else s.timeline }
  | addEventStep (s : StudioState) (freshId paramPath paramLabel : String)
      (start «end» : Int) (value : String) (subjectContext : Option Subject)
      (hImg : s.promptType ≠ PromptType.Image) :
      Step s { s with timeline := addTimelineEvent s.timeline freshId paramPath
                        paramLabel start «end» value subjectContext }
  | removeEventStep (s : StudioState) (id : String) :
      Step s { s with timeline := s.timeline.filter (fun event => event.id ≠ id) }
  | updateEventStep (s : StudioState) (updatedEvent : TimelineEvent) :
      Step s { s with timeline := s.timeline.map
                        (fun e => if e.id = updatedEvent.id then updatedEvent else e) }
  | removeSubjectStep (s : StudioState) (id : String) :
      Step s { s with subjects := (removeSubject s.subjects s.timeline id).1,
                      timeline := (removeSubject s.subjects s.timeline id).2 }
  | addSubjectStep (s : StudioState) (freshId name : String) :
      Step s { s with subjects := s.subjects ++ [{ id := freshId, name := name, attrs := [] }] }
  | updateSubjectStep (s : StudioState) (id key : String) (value : PVal) :
      Step s { s with subjects := updateSubject s.subjects id key value }
  | paramChangeStep (s : StudioState) (path : List String) (value : PVal)
      (params' : List (String × PVal)) (h : setPath s.params path value = some params') :
      Step s { s with params := params' }
  | resetStep (s : StudioState) (freshId : String) :
      Step s { promptType := s.promptType,
               subjects := [{ id := freshId, name := "subject_1", attrs := [] }],
               params := [], timeline := [] }

/-- A state reachable from the initial state by user interactions. -/
def Reachable (s : StudioState) : Prop :=
  Relation.ReflTransGen Step initialState s

/-! ## Statement-side helpers -/

/-- `max(lane) + 1` over a list of lanes, `0` for the empty list — the
spec's description of `totalLanes`. -/
def maxLanePlusOne (lanes : List Nat) : Nat :=
  lanes.foldr (fun x acc => max (x + 1) acc) 0

/-- Two laid-out events in the same lane occupy disjoint `[start, end)`
intervals. -/
def SameLaneDisjoint (x y : LaidOutEvent) : Prop :=
  x.lane = y.lane → (x.«end» ≤ y.start ∨ y.«end» ≤ x.start)

/-- The number of lanes whose recorded end time is still in the future at
instant `t` (busy lanes). -/
def countBusy (t : Int) (lanes : List Int) : Nat :=
  lanes.countP (fun l => decide (t < l))

/-- The number of events of `l` whose `[start, end)` interval contains the
instant `t`. -/
def countCover (t : Int) (l : List TimelineEvent) : Nat :=
  l.countP (fun x => decide (x.start ≤ t) && decide (t < x.«end»))

/-- `countCover` over laid-out events. -/
def countCoverL (t : Int) (l : List LaidOutEvent) : Nat :=
  l.countP (fun x => decide (x.start ≤ t) && decide (t < x.«end»))

/-- Loop invariant: every assigned lane index is a valid index of the
lanes array. -/
def LaneBound (layout : List LaidOutEvent) (lanes : List Int) : Prop :=
  ∀ x ∈ layout, x.lane < lanes.length

/-- Loop invariant: each lane's recorded end time bounds the end of every
event already placed in that lane. -/
def LaneEndBound (layout : List LaidOutEvent) (lanes : List Int) : Prop :=
  ∀ x ∈ layout, ∀ v, lanes[x.lane]? = some v → x.«end» ≤ v

/-- Loop invariant: every lane of the lanes array has received at least
one event. -/
def LaneSurj (layout : List LaidOutEvent) (lanes : List Int) : Prop :=
  ∀ j, j < lanes.length → ∃ x ∈ layout, x.lane = j

/-- Loop invariant: at any instant `t` at or after every placed start, the
lanes still busy at `t` are covered by distinct placed events containing
`t`. -/
def CoverBound (layout : List LaidOutEvent) (lanes : List Int) : Prop :=
  ∀ t : Int, (∀ x ∈ layout, x.start ≤ t) → countBusy t lanes ≤ countCoverL t layout

/-- Loop invariant: the lanes array is empty, or some instant is covered
by at least `lanes.length` placed events. -/
def LanesWitnessed (layout : List LaidOutEvent) (lanes : List Int) : Prop :=
  lanes = [] ∨ ∃ t : Int, lanes.length ≤ countCoverL t layout

/-- A sample event for concrete instantiations. -/
def sampleEvent (i : String) (s e : Int) : TimelineEvent :=
  { id := i, paramName := "Action", paramPath := "scene.action",
    paramLabel := "Action", subjectId := none, start := s, «end» := e,
    value := "running" }

/-- A concrete parameter tree whose technical category holds both another
sub-field and a negativeKeywords entry. -/
def technicalNegParams : List (String × PVal) :=
  [("technical", PVal.obj
    [("resolution", PVal.list ["4k"]), ("negativeKeywords", PVal.list ["blurry"])])]

end PromptStudio

namespace PromptStudio

/-! ## Lemmas about the lane placement scan -/

@[simp]
theorem laidOut_toTimelineEvent (ev : TimelineEvent) (i : Nat) :
    (LaidOutEvent.mk ev i).toTimelineEvent = ev := rfl

@[simp]
theorem laidOut_lane (ev : TimelineEvent) (i : Nat) :
    (LaidOutEvent.mk ev i).lane = i := rfl

/-- placeInLanes either reuses an existing lane — one whose end time is at
most the event's start, which it overwrites with the event's end — or
appends a fresh lane because every existing lane is still busy past the
event's start. -/
theorem placeInLanes_cases (s e : Int) (ls : List Int) :
    ((placeInLanes s e ls).1 < ls.length ∧
      (∀ v, ls[(placeInLanes s e ls).1]? = some v → v ≤ s) ∧
      (placeInLanes s e ls).2 = ls.set (placeInLanes s e ls).1 e) ∨
    ((placeInLanes s e ls).1 = ls.length ∧
      (∀ l ∈ ls, s < l) ∧
      (placeInLanes s e ls).2 = ls ++ [e]) := by
  induction ls with
  | nil =>
    right
    simp [placeInLanes]
  | cons l ls ih =>
    by_cases h : l ≤ s
    · left
      refine ⟨by simp [placeInLanes, h], ?_, by simp [placeInLanes, h]⟩
      intro v hv
      simp [placeInLanes, h] at hv
      omega
    · rcases ih with ⟨h1, h2, h3⟩ | ⟨h1, h2, h3⟩
      · left
        refine ⟨?_, ?_, ?_⟩
        · simp only [placeInLanes, if_neg h, List.length_cons]
          omega
        · intro v hv
          simp only [placeInLanes, if_neg h] at hv
          rw [List.getElem?_cons_succ] at hv
          exact h2 v hv
        · simp only [placeInLanes, if_neg h, List.set_cons_succ]
          rw [h3]
      · right
        refine ⟨?_, ?_, ?_⟩
        · simp only [placeInLanes, if_neg h, List.length_cons]
          omega
        · intro l' hl'
          rcases List.mem_cons.mp hl' with rfl | hmem
          · omega
          · exact h2 l' hmem
        · simp only [placeInLanes, if_neg h, List.cons_append]
          rw [h3]

/-- The layout accumulated by layoutAux keeps pairwise-disjoint
occupancy within each lane, given that every remaining event has a
positive span. -/
theorem layoutAux_disjoint (rest : List TimelineEvent) :
    ∀ (layout : List LaidOutEvent) (lanes : List Int),
    (∀ ev ∈ rest, ev.start < ev.«end») →
    LaneBound layout lanes → LaneEndBound layout lanes →
    layout.Pairwise SameLaneDisjoint →
    (layoutAux layout lanes rest).1.Pairwise SameLaneDisjoint := by
  induction rest with
  | nil =>
    intro layout lanes _ _ _ hC
    simpa [layoutAux] using hC
  | cons ev rest ih =>
    intro layout lanes hse hA hB hC
    have hse' : ∀ e ∈ rest, e.start < e.«end» := fun e he => hse e (List.mem_cons_of_mem _ he)
    have hev : ev.start < ev.«end» := hse ev (List.mem_cons_self _ _)
    rw [layoutAux]
    rcases placeInLanes_cases ev.start ev.«end» lanes with ⟨hlt, hget, hset⟩ | ⟨heq, hall, happ⟩
    · -- the event is placed into an existing lane
      obtain ⟨oldv, holdv⟩ : ∃ v, lanes[(placeInLanes ev.start ev.«end» lanes).1]? = some v :=
        ⟨_, List.getElem?_eq_getElem hlt⟩
      have hold_le : oldv ≤ ev.start := hget oldv holdv
      refine ih _ _ hse' ?_ ?_ ?_
      · intro x hx
        rw [hset, List.length_set]
        rcases List.mem_append.mp hx with hx | hx
        · exact hA x hx
        · simp only [List.mem_singleton] at hx
          subst hx
          exact hlt
      · intro x hx v hv
        rw [hset] at hv
        rcases List.mem_append.mp hx with hx | hx
        · by_cases hxl : x.lane = (placeInLanes ev.start ev.«end» lanes).1
          · rw [hxl, List.getElem?_set_self hlt] at hv
            have hxo := hB x hx oldv (by rw [← hxl] at holdv; exact holdv)
            simp only [Option.some.injEq] at hv
            omega
          · rw [List.getElem?_set_ne (fun hh => hxl hh.symm)] at hv
            exact hB x hx v hv
        · simp only [List.mem_singleton] at hx
          subst hx
          simp only [laidOut_lane, List.getElem?_set_self hlt, Option.some.injEq] at hv
          simp only [laidOut_toTimelineEvent]
          omega
      · rw [List.pairwise_append]
        refine ⟨hC, List.pairwise_singleton _ _, ?_⟩
        intro x hx b hb
        simp only [List.mem_singleton] at hb
        subst hb
        intro hlane
        left
        simp only [laidOut_lane] at hlane
        rw [← hlane] at holdv
        have hxo := hB x hx oldv holdv
        simp only [laidOut_toTimelineEvent]
        omega
    · -- every lane is busy: a new lane is appended
      refine ih _ _ hse' ?_ ?_ ?_
      · intro x hx
        rw [happ, List.length_append, List.length_singleton]
        rcases List.mem_append.mp hx with hx | hx
        · have := hA x hx
          omega
        · simp only [List.mem_singleton] at hx
          subst hx
          simp only [laidOut_lane, heq]
          omega
      · intro x hx v hv
        rw [happ] at hv
        rcases List.mem_append.mp hx with hx | hx
        · have hxl := hA x hx
          rw [List.getElem?_append_left hxl] at hv
          exact hB x hx v hv
        · simp only [List.mem_singleton] at hx
          subst hx
          simp only [laidOut_lane, heq] at hv
          rw [List.getElem?_concat_length] at hv
          simp only [Option.some.injEq] at hv
          simp only [laidOut_toTimelineEvent]
          omega
      · rw [List.pairwise_append]
        refine ⟨hC, List.pairwise_singleton _ _, ?_⟩
        intro x hx b hb
        simp only [List.mem_singleton] at hb
        subst hb
        intro hlane
        exact absurd (hlane ▸ hA x hx) (by simp [heq])

/-! ## C1: events sharing a lane never overlap -/

/-- Membership transfer through the stable sort of calculateLayout. -/
theorem mem_sortedEvents {events : List TimelineEvent} {ev : TimelineEvent}
    (h : ev ∈ events.mergeSort (fun a b => a.start ≤ b.start)) : ev ∈ events :=
  (List.mergeSort_perm events _).mem_iff.mp h

/-- C1: for every collection of events each satisfying start < end, the
lane assignment produced by calculateLayout never places two events whose
[start, end) intervals overlap into the same lane; events sharing a lane
are pairwise disjoint in time. -/
theorem calculateLayout_same_lane_disjoint (events : List TimelineEvent)
    (h : ∀ ev ∈ events, ev.start < ev.«end») :
    (calculateLayout events).1.Pairwise SameLaneDisjoint := by
  have hm : ∀ ev ∈ events.mergeSort (fun a b => a.start ≤ b.start), ev.start < ev.«end» :=
    fun ev hev => h ev (mem_sortedEvents hev)
  simpa [calculateLayout] using
    layoutAux_disjoint _ [] [] hm
      (by intro x hx; simp at hx)
      (by intro x hx; simp at hx)
      List.Pairwise.nil

/-- C1 witness: a concrete overlapping pair satisfies the hypothesis, and
the theorem yields the disjointness of each lane's occupants. -/
theorem calculateLayout_same_lane_disjoint_witness :
    (∀ ev ∈ [sampleEvent "a" 0 4, sampleEvent "b" 2 6], ev.start < ev.«end») ∧
    (calculateLayout [sampleEvent "a" 0 4, sampleEvent "b" 2 6]).1.Pairwise SameLaneDisjoint :=
  ⟨by decide, calculateLayout_same_lane_disjoint _ (by decide)⟩

/-! ## C3: drag updates stay within bounds and preserve duration -/

/-- C3: every update emitted by the drag handler for an event satisfying
0 ≤ start < end ≤ duration has a new start ≥ 0, fits inside the timeline
(newStart + (end - start) ≤ duration), and preserves the event's span:
the updated end minus start equals the original end minus start. -/
theorem handleMouseMove_bounds (events : List TimelineEvent) (duration : Int)
    (dragging : DraggingEvent) (mouseX rectWidth : ℚ) (ev ev' : TimelineEvent)
    (hfind : events.find? (fun e => e.id = dragging.id) = some ev)
    (h0 : 0 ≤ ev.start) (_hlt : ev.start < ev.«end») (hd : ev.«end» ≤ duration)
    (hsome : handleMouseMove events duration dragging mouseX rectWidth = some ev') :
    0 ≤ ev'.start ∧ ev'.start + (ev.«end» - ev.start) ≤ duration ∧
      ev'.«end» - ev'.start = ev.«end» - ev.start := by
  unfold handleMouseMove at hsome
  rw [hfind] at hsome
  simp only at hsome
  split at hsome
  · simp only [Option.some.injEq] at hsome
    subst hsome
    simp only
    unfold clampStart
    omega
  · exact absurd hsome (by simp)

/-- C3 witness: dragging the event [2,5) on a duration-10 timeline to the
pointer position 9/10 emits an update, and the bounds hold for it. -/
theorem handleMouseMove_bounds_witness :
    0 ≤ ({ sampleEvent "a" 2 5 with start := 7, «end» := 10 } : TimelineEvent).start ∧
    ({ sampleEvent "a" 2 5 with start := 7, «end» := 10 } : TimelineEvent).start +
      ((sampleEvent "a" 2 5).«end» - (sampleEvent "a" 2 5).start) ≤ 10 ∧
    ({ sampleEvent "a" 2 5 with start := 7, «end» := 10 } : TimelineEvent).«end» -
      ({ sampleEvent "a" 2 5 with start := 7, «end» := 10 } : TimelineEvent).start =
      (sampleEvent "a" 2 5).«end» - (sampleEvent "a" 2 5).start :=
  handleMouseMove_bounds [sampleEvent "a" 2 5] 10 { id := "a", startOffset := 0 } 9 10
    (sampleEvent "a" 2 5) _
    (by norm_num [List.find?, sampleEvent])
    (by norm_num [sampleEvent]) (by norm_num [sampleEvent]) (by norm_num [sampleEvent])
    (by norm_num [handleMouseMove, clampStart, List.find?, sampleEvent, round_eq])

/-! ## C5: the concrete clamp scenario -/

/-- C5 counterexample: dragging the event with start 2, end 5 on a
duration-10 timeline, with captured pointer offset 0, to the pointer
position corresponding to time 9 (fraction 9/10 of the rect width) does
NOT yield a clamped start of 5: the emitted update's start is 7, the value
of min(candidate, duration - eventDuration) = min(9, 10 - 3). -/
theorem drag_scenario_not_five :
    (handleMouseMove [sampleEvent "a" 2 5] 10 { id := "a", startOffset := 0 } 9 10).map
      (fun e => e.start) ≠ some 5 := by
  norm_num [handleMouseMove, clampStart, List.find?, sampleEvent, round_eq]

/-- C5 amended: that drag emits an update with clamped start 7 (and end
10), exactly the clamp formula min(candidate, duration - eventDuration) =
min(9, 7) applied to the rounded candidate 9. -/
theorem drag_scenario_start_seven :
    handleMouseMove [sampleEvent "a" 2 5] 10 { id := "a", startOffset := 0 } 9 10 =
      some { sampleEvent "a" 2 5 with start := 7, «end» := 10 } ∧
    (7 : Int) = min (round ((9 : ℚ) / 10 * 10 - 0)) (10 - (5 - 2)) := by
  constructor
  · norm_num [handleMouseMove, clampStart, List.find?, sampleEvent, round_eq]
  · norm_num [round_eq]

/-! ## C6: clamping an event at least as long as the timeline -/

/-- C6: when the event's span is at least the timeline duration, the clamp
is total and collapses to start 0 (writing the derived end as
0 + eventDuration); correspondingly any update the drag handler emits for
such an event has start exactly 0 and end 0 + (end - start). -/
theorem clampStart_degenerate :
    (∀ duration eventDuration newStart : Int, duration ≤ eventDuration →
      clampStart duration eventDuration newStart = 0 ∧
      clampStart duration eventDuration newStart + eventDuration = 0 + eventDuration) ∧
    (∀ (events : List TimelineEvent) (duration : Int) (dragging : DraggingEvent)
      (mouseX rectWidth : ℚ) (ev ev' : TimelineEvent),
      events.find? (fun e => e.id = dragging.id) = some ev →
      duration ≤ ev.«end» - ev.start →
      handleMouseMove events duration dragging mouseX rectWidth = some ev' →
      ev'.start = 0 ∧ ev'.«end» = 0 + (ev.«end» - ev.start)) := by
  have hc : ∀ duration eventDuration newStart : Int, duration ≤ eventDuration →
      clampStart duration eventDuration newStart = 0 := by
    intro d ed ns h
    unfold clampStart
    omega
  refine ⟨fun d ed ns h => ⟨hc d ed ns h, by rw [hc d ed ns h]⟩, ?_⟩
  intro events duration dragging mouseX rectWidth ev ev' hfind hlong hsome
  unfold handleMouseMove at hsome
  rw [hfind] at hsome
  simp only at hsome
  split at hsome
  · simp only [Option.some.injEq] at hsome
    subst hsome
    simp only
    rw [hc _ _ _ hlong]
    exact ⟨rfl, rfl⟩
  · exact absurd hsome (by simp)

/-- C6 witness: a drag on the event [2,20) over a duration-10 timeline
(span 18 ≥ 10) emits an update, and its start is 0 with end 0 + 18; the
pure clamp fact is instantiated at (10, 18, 5). -/
theorem clampStart_degenerate_witness :
    (clampStart 10 18 5 = 0 ∧ clampStart 10 18 5 + 18 = 0 + 18) ∧
    (({ sampleEvent "a" 2 20 with start := 0, «end» := 18 } : TimelineEvent).start = 0 ∧
     ({ sampleEvent "a" 2 20 with start := 0, «end» := 18 } : TimelineEvent).«end» =
       0 + ((sampleEvent "a" 2 20).«end» - (sampleEvent "a" 2 20).start)) :=
  ⟨clampStart_degenerate.1 10 18 5 (by norm_num),
   clampStart_degenerate.2 [sampleEvent "a" 2 20] 10 { id := "a", startOffset := 0 } 5 10
     (sampleEvent "a" 2 20) _
     (by norm_num [List.find?, sampleEvent])
     (by norm_num [sampleEvent])
     (by norm_num [handleMouseMove, clampStart, List.find?, sampleEvent, round_eq])⟩

/-! ## C7: setting a path to an empty value deletes the leaf -/

/-- After deleting key `k`, looking `k` up yields nothing. -/
theorem objGet_objDelete (o : List (String × PVal)) (k : String) :
    objGet (objDelete o k) k = none := by
  induction o with
  | nil => rfl
  | cons p rest ih =>
    obtain ⟨k', v'⟩ := p
    by_cases h : k' = k
    · simpa [objDelete, h] using ih
    · simpa [objDelete, objGet, h] using ih

/-- Setting key `k` makes looking `k` up yield the new value. -/
theorem objGet_objSet_self (o : List (String × PVal)) (k : String) (v : PVal) :
    objGet (objSet o k v) k = some v := by
  induction o with
  | nil => simp [objSet, objGet]
  | cons p rest ih =>
    obtain ⟨k', v'⟩ := p
    by_cases h : k' = k
    · simp [objSet, objGet, h]
    · simpa [objSet, objGet, h] using ih

/-- The empty object has well-shaped intermediates along every path. -/
theorem pathIntermediatesOk_nil (path : List String) :
    pathIntermediatesOk [] path = true := by
  cases path with
  | nil => rfl
  | cons k tail =>
    cases tail with
    | nil => rfl
    | cons k2 rest => simp [pathIntermediatesOk, objGet]

/-- Core of the deletion property: along a path whose intermediates are
objects, missing, or the falsy empty string, setting an empty value
succeeds and the leaf is no longer present afterwards. -/
theorem setPath_empty_deletes (path : List String) :
    ∀ (o : List (String × PVal)) (v : PVal),
      pathIntermediatesOk o path = true → isEmptyValue v = true →
      ∃ o', setPath o path v = some o' ∧ getPath o' path = none := by
  induction path with
  | nil =>
    intro o v _ _
    exact ⟨o, rfl, rfl⟩
  | cons k tail ih =>
    intro o v hok hemp
    cases tail with
    | nil =>
      refine ⟨objDelete o k, ?_, ?_⟩
      · simp [setPath, hemp]
      · simp [getPath, objGet_objDelete]
    | cons k2 rest =>
      simp only [pathIntermediatesOk] at hok
      cases hget : objGet o k with
      | none =>
        obtain ⟨c, hc, hg⟩ := ih [] v (pathIntermediatesOk_nil _) hemp
        refine ⟨objSet o k (PVal.obj c), ?_, ?_⟩
        · simp [setPath, hget, hc]
        · simp [getPath, objGet_objSet_self, hg]
      | some w =>
        cases w with
        | obj child =>
          rw [hget] at hok
          obtain ⟨c, hc, hg⟩ := ih child v hok hemp
          refine ⟨objSet o k (PVal.obj c), ?_, ?_⟩
          · simp [setPath, hget, hc]
          · simp [getPath, objGet_objSet_self, hg]
        | str s =>
          rw [hget] at hok
          simp only [decide_eq_true_eq] at hok
          subst hok
          obtain ⟨c, hc, hg⟩ := ih [] v (pathIntermediatesOk_nil _) hemp
          refine ⟨objSet o k (PVal.obj c), ?_, ?_⟩
          · simp [setPath, hget, hc]
          · simp [getPath, objGet_objSet_self, hg]
        | list l =>
          rw [hget] at hok
          exact absurd hok (by simp)

/-- C7: setting `params.camera.angle` to the empty list removes the
`angle` key from the `camera` sub-object while `camera` itself stays
present (possibly as an empty object); and in general, setting any path
with well-shaped intermediates to an empty string or empty list deletes
that path's leaf rather than storing an empty placeholder. -/
theorem setPath_empty_removes_leaf :
    (∀ params : List (String × PVal),
      pathIntermediatesOk params ["camera", "angle"] = true →
      ∃ params' o', setPath params ["camera", "angle"] (PVal.list []) = some params' ∧
        objGet params' "camera" = some (PVal.obj o') ∧ objGet o' "angle" = none) ∧
    (∀ (params : List (String × PVal)) (path : List String) (v : PVal),
      pathIntermediatesOk params path = true → isEmptyValue v = true →
      ∃ params', setPath params path v = some params' ∧ getPath params' path = none) := by
  constructor
  · intro params hok
    simp only [pathIntermediatesOk] at hok
    cases hget : objGet params "camera" with
    | none =>
      refine ⟨objSet params "camera" (PVal.obj (objDelete [] "angle")), objDelete [] "angle",
        ?_, ?_, objGet_objDelete _ _⟩
      · simp [setPath, hget, isEmptyValue]
      · exact objGet_objSet_self _ _ _
    | some w =>
      cases w with
      | obj child =>
        refine ⟨objSet params "camera" (PVal.obj (objDelete child "angle")),
          objDelete child "angle", ?_, ?_, objGet_objDelete _ _⟩
        · simp [setPath, hget, isEmptyValue]
        · exact objGet_objSet_self _ _ _
      | str s =>
        rw [hget] at hok
        simp only [decide_eq_true_eq] at hok
        subst hok
        refine ⟨objSet params "camera" (PVal.obj (objDelete [] "angle")), objDelete [] "angle",
          ?_, ?_, objGet_objDelete _ _⟩
        · simp [setPath, hget, isEmptyValue]
        · exact objGet_objSet_self _ _ _
      | list l =>
        rw [hget] at hok
        exact absurd hok (by simp)
  · intro params path v hok hemp
    exact setPath_empty_deletes path params v hok hemp

/-- C7 witness: on the concrete tree with camera = \x7b angle, lens \x7d the
scenario part removes only `angle`; the general part applied to a
one-entry camera leaves `camera` present as the empty object. -/
theorem setPath_empty_removes_leaf_witness :
    (∃ params' o',
      setPath [("camera", PVal.obj [("angle", PVal.list ["low"]), ("lens", PVal.list ["35mm"])])]
        ["camera", "angle"] (PVal.list []) = some params' ∧
      objGet params' "camera" = some (PVal.obj o') ∧ objGet o' "angle" = none) ∧
    (∃ params',
      setPath [("camera", PVal.obj [("angle", PVal.list ["low"])])]
        ["camera", "angle"] (PVal.list []) = some params' ∧
      getPath params' ["camera", "angle"] = none) :=
  ⟨setPath_empty_removes_leaf.1
      [("camera", PVal.obj [("angle", PVal.list ["low"]), ("lens", PVal.list ["35mm"])])] rfl,
   setPath_empty_removes_leaf.2
      [("camera", PVal.obj [("angle", PVal.list ["low"])])] ["camera", "angle"]
      (PVal.list []) rfl rfl⟩

/-! ## C8: removing a subject cascades to its timeline events -/

/-- C8: removing a subject by id removes that subject and every timeline
event whose subjectId equals that id, while all other subjects, events of
other subjects, and events with no subjectId survive; the results are
exactly the corresponding filters of the inputs (order preserved). -/
theorem removeSubject_cascades (subjects : List Subject) (timeline : List TimelineEvent)
    (id : String) (sub : Subject)
    (hfind : subjects.find? (fun s => s.id = id) = some sub) :
    (∀ s ∈ (removeSubject subjects timeline id).1, s.id ≠ id) ∧
    (∀ s ∈ subjects, s.id ≠ id → s ∈ (removeSubject subjects timeline id).1) ∧
    (∀ e ∈ (removeSubject subjects timeline id).2, e.subjectId ≠ some id) ∧
    (∀ e ∈ timeline, e.subjectId ≠ some id → e ∈ (removeSubject subjects timeline id).2) ∧
    (removeSubject subjects timeline id).1 = subjects.filter (fun s => s.id ≠ id) ∧
    (removeSubject subjects timeline id).2 =
      timeline.filter (fun e => e.subjectId ≠ some id) := by
  have hid : sub.id = id := by
    have := List.find?_some hfind
    simpa using this
  subst hid
  unfold removeSubject
  rw [hfind]
  refine ⟨?_, ?_, ?_, ?_, rfl, rfl⟩
  · intro s hs
    simp only [List.mem_filter, decide_eq_true_eq] at hs
    simpa using hs.2
  · intro s hs hne
    exact List.mem_filter.mpr ⟨hs, by simpa using hne⟩
  · intro e he
    simp only [List.mem_filter, decide_eq_true_eq] at he
    simpa using he.2
  · intro e he hne
    exact List.mem_filter.mpr ⟨he, by simpa using hne⟩

/-- C8 witness: removing subject s1 removes it and its event, keeping the
other subject, the other subject's event and the global event. -/
theorem removeSubject_cascades_witness :
    (∀ s ∈ (removeSubject
        [{ id := "s1", name := "alice", attrs := [] },
         { id := "s2", name := "bob", attrs := [] }]
        [{ sampleEvent "e1" 0 3 with subjectId := some "s1" },
         { sampleEvent "e2" 1 4 with subjectId := some "s2" },
         sampleEvent "e3" 2 5] "s1").1, s.id ≠ "s1") ∧
    (∀ s ∈ [{ id := "s1", name := "alice", attrs := [] },
            { id := "s2", name := "bob", attrs := [] }], s.id ≠ "s1" →
      s ∈ (removeSubject
        [{ id := "s1", name := "alice", attrs := [] },
         { id := "s2", name := "bob", attrs := [] }]
        [{ sampleEvent "e1" 0 3 with subjectId := some "s1" },
         { sampleEvent "e2" 1 4 with subjectId := some "s2" },
         sampleEvent "e3" 2 5] "s1").1) ∧
    (∀ e ∈ (removeSubject
        [{ id := "s1", name := "alice", attrs := [] },
         { id := "s2", name := "bob", attrs := [] }]
        [{ sampleEvent "e1" 0 3 with subjectId := some "s1" },
         { sampleEvent "e2" 1 4 with subjectId := some "s2" },
         sampleEvent "e3" 2 5] "s1").2, e.subjectId ≠ some "s1") ∧
    (∀ e ∈ [{ sampleEvent "e1" 0 3 with subjectId := some "s1" },
            { sampleEvent "e2" 1 4 with subjectId := some "s2" },
            sampleEvent "e3" 2 5], e.subjectId ≠ some "s1" →
      e ∈ (removeSubject
        [{ id := "s1", name := "alice", attrs := [] },
         { id := "s2", name := "bob", attrs := [] }]
        [{ sampleEvent "e1" 0 3 with subjectId := some "s1" },
         { sampleEvent "e2" 1 4 with subjectId := some "s2" },
         sampleEvent "e3" 2 5] "s1").2) ∧
    (removeSubject
        [{ id := "s1", name := "alice", attrs := [] },
         { id := "s2", name := "bob", attrs := [] }]
        [{ sampleEvent "e1" 0 3 with subjectId := some "s1" },
         { sampleEvent "e2" 1 4 with subjectId := some "s2" },
         sampleEvent "e3" 2 5] "s1").1 =
      [{ id := "s1", name := "alice", attrs := [] },
       { id := "s2", name := "bob", attrs := [] }].filter (fun s => s.id ≠ "s1") ∧
    (removeSubject
        [{ id := "s1", name := "alice", attrs := [] },
         { id := "s2", name := "bob", attrs := [] }]
        [{ sampleEvent "e1" 0 3 with subjectId := some "s1" },
         { sampleEvent "e2" 1 4 with subjectId := some "s2" },
         sampleEvent "e3" 2 5] "s1").2 =
      [{ sampleEvent "e1" 0 3 with subjectId := some "s1" },
       { sampleEvent "e2" 1 4 with subjectId := some "s2" },
       sampleEvent "e3" 2 5].filter (fun e => e.subjectId ≠ some "s1") :=
  removeSubject_cascades _ _ "s1" { id := "s1", name := "alice", attrs := [] }
    (by simp [List.find?])

/-! ## C10: promptType Image implies an empty timeline -/

/-- Cascading deletion from an empty timeline leaves it empty. -/
theorem removeSubject_timeline_nil (subjects : List Subject) (id : String) :
    (removeSubject subjects [] id).2 = [] := by
  unfold removeSubject
  cases subjects.find? (fun s => s.id = id) <;> rfl

/-- Every studio step preserves the invariant that an Image prompt type
has an empty timeline. -/
theorem step_preserves_image_empty {s s' : StudioState} (hstep : Step s s')
    (hinv : s.promptType = PromptType.Image → s.timeline = []) :
    s'.promptType = PromptType.Image → s'.timeline = [] := by
  cases hstep with
  | setPromptTypeStep t =>
    intro h
    simp only at h
    simp only [h]
    rfl
  | addEventStep freshId paramPath paramLabel start «end» value subjectContext hImg =>
    intro h
    exact absurd h hImg
  | removeEventStep id =>
    intro h
    simp only at h ⊢
    rw [hinv h]
    rfl
  | updateEventStep updatedEvent =>
    intro h
    simp only at h ⊢
    rw [hinv h]
    rfl
  | removeSubjectStep id =>
    intro h
    simp only at h ⊢
    rw [hinv h]
    exact removeSubject_timeline_nil _ _
  | addSubjectStep freshId name =>
    intro h
    exact hinv h
  | updateSubjectStep id key value =>
    intro h
    exact hinv h
  | paramChangeStep path value params' hset =>
    intro h
    exact hinv h
  | resetStep freshId =>
    intro h
    rfl

/-- Induction along the reachability relation. -/
theorem reachable_image_inv (s : StudioState) (hreach : Reachable s) :
    s.promptType = PromptType.Image → s.timeline = [] := by
  unfold Reachable at hreach
  induction hreach with
  | refl => intro _; rfl
  | tail hsteps hstep ih => exact step_preserves_image_empty hstep ih

/-- C10: in every reachable studio state, an Image prompt type goes with
an empty timeline — switching to Image clears the timeline, and no step
can add an event while the prompt type is Image. -/
theorem reachable_image_timeline_empty (s : StudioState) (hreach : Reachable s)
    (himg : s.promptType = PromptType.Image) : s.timeline = [] :=
  reachable_image_inv s hreach himg

/-- C10 witness: reset, switch to Video, add an event, then switch back to
Image: the resulting state is reachable, has prompt type Image, and the
theorem yields its empty timeline. -/
theorem reachable_image_timeline_empty_witness :
    ({ promptType := PromptType.Image,
       subjects := [{ id := "s1", name := "subject_1", attrs := [] }],
       params := [], timeline := [] } : StudioState).timeline = [] :=
  reachable_image_timeline_empty _
    (Relation.ReflTransGen.tail
      (Relation.ReflTransGen.tail
        (Relation.ReflTransGen.tail
          (Relation.ReflTransGen.tail Relation.ReflTransGen.refl
            (Step.resetStep initialState "s1"))
          (Step.setPromptTypeStep _ PromptType.Video))
        (Step.addEventStep _ "e1" "scene.action" "Action" 1 3 "running" none (by decide)))
      (Step.setPromptTypeStep _ PromptType.Image))
    rfl

/-! ## C4: the technical category versus its negativeKeywords entry -/

/-- C4 counterexample: with technical holding both a resolution sub-field
and a negativeKeywords entry, the category loop renders nothing at all —
the whole technical category is skipped, not just the negativeKeywords
sub-field — and the trailing negative-keywords section renders nothing
either, because it reads params.rules.negativeKeywords, not
technical.negativeKeywords. -/
theorem technical_negative_skips_whole_category :
    generalSettingsText technicalNegParams = "" ∧ rulesText technicalNegParams = "" :=
  ⟨rfl, rfl⟩

/-- One loop iteration on `technical` contributes nothing whenever
`params.technical.negativeKeywords` is truthy. -/
theorem categoryStep_technical (params : List (String × PVal)) (acc : String)
    (h : technicalHasNegative params = true) :
    categoryStep params acc "technical" = acc := by
  unfold categoryStep
  cases hget : objGet params "technical" with
  | none => rfl
  | some v => simp [h]

/-- C4 amended: when `params.technical.negativeKeywords` is present
(truthy), the text projection skips the entire technical category —
the remaining six categories render in their fixed order — and the
trailing negative-keywords section is sourced from
`params.rules.negativeKeywords`, so when no `rules` entry exists the
technical negative keywords are not rendered anywhere. -/
theorem technical_negative_amended (params : List (String × PVal))
    (h : technicalHasNegative params = true) :
    generalSettingsText params =
      categoriesText params ["directorNotes", "scene", "composition", "camera", "style", "audio"] ∧
    (objGet params "rules" = none → rulesText params = "") := by
  constructor
  · simp only [generalSettingsText, categoriesText, promptOrder, List.foldl]
    rw [categoryStep_technical params _ h]
  · intro hrules
    unfold rulesText
    rw [hrules]

/-- C4 amended witness: on the concrete technical-plus-negativeKeywords
tree (which has no rules entry), the six other categories render as usual
(here: nothing, since only technical is populated) and the trailing
section is empty. -/
theorem technical_negative_amended_witness :
    generalSettingsText technicalNegParams =
      categoriesText technicalNegParams
        ["directorNotes", "scene", "composition", "camera", "style", "audio"] ∧
    rulesText technicalNegParams = "" :=
  ⟨(technical_negative_amended technicalNegParams rfl).1,
   (technical_negative_amended technicalNegParams rfl).2 rfl⟩

/-! ## C9: shape of the layout output -/

/-- Unfolding equation for the loop step. -/
theorem layoutAux_cons (layout : List LaidOutEvent) (lanes : List Int)
    (ev : TimelineEvent) (rest : List TimelineEvent) :
    layoutAux layout lanes (ev :: rest) =
      layoutAux (layout ++ [{ ev with lane := (placeInLanes ev.start ev.«end» lanes).1 }])
        (placeInLanes ev.start ev.«end» lanes).2 rest := rfl

/-- The layout lists exactly the processed events, in processing order,
with their original fields unchanged. -/
theorem layoutAux_map_events (rest : List TimelineEvent) :
    ∀ (layout : List LaidOutEvent) (lanes : List Int),
    (layoutAux layout lanes rest).1.map (fun x => x.toTimelineEvent) =
      layout.map (fun x => x.toTimelineEvent) ++ rest := by
  induction rest with
  | nil => intro layout lanes; simp [layoutAux]
  | cons ev rest ih =>
    intro layout lanes
    rw [layoutAux_cons, ih]
    simp

/-- The loop keeps lane indices in range and every lane inhabited. -/
theorem layoutAux_bound_surj (rest : List TimelineEvent) :
    ∀ (layout : List LaidOutEvent) (lanes : List Int),
    LaneBound layout lanes → LaneSurj layout lanes →
    LaneBound (layoutAux layout lanes rest).1 (layoutAux layout lanes rest).2 ∧
    LaneSurj (layoutAux layout lanes rest).1 (layoutAux layout lanes rest).2 := by
  induction rest with
  | nil =>
    intro layout lanes hA hS
    exact ⟨hA, hS⟩
  | cons ev rest ih =>
    intro layout lanes hA hS
    rw [layoutAux_cons]
    rcases placeInLanes_cases ev.start ev.«end» lanes with ⟨hlt, _, hset⟩ | ⟨heq, _, happ⟩
    · refine ih _ _ ?_ ?_
      · intro x hx
        rw [hset, List.length_set]
        rcases List.mem_append.mp hx with hx | hx
        · exact hA x hx
        · simp only [List.mem_singleton] at hx
          subst hx
          simpa using hlt
      · intro j hj
        rw [hset, List.length_set] at hj
        obtain ⟨x, hx, hxl⟩ := hS j hj
        exact ⟨x, List.mem_append_left _ hx, hxl⟩
    · refine ih _ _ ?_ ?_
      · intro x hx
        rw [happ, List.length_append, List.length_singleton]
        rcases List.mem_append.mp hx with hx | hx
        · have := hA x hx
          omega
        · simp only [List.mem_singleton] at hx
          subst hx
          simp only [laidOut_lane, heq]
          omega
      · intro j hj
        rw [happ, List.length_append, List.length_singleton] at hj
        by_cases hjl : j < lanes.length
        · obtain ⟨x, hx, hxl⟩ := hS j hjl
          exact ⟨x, List.mem_append_left _ hx, hxl⟩
        · have hj' : j = lanes.length := by omega
          refine ⟨{ ev with lane := (placeInLanes ev.start ev.«end» lanes).1 },
            List.mem_append_right _ (List.mem_singleton_self _), ?_⟩
          simp [heq, hj']

/-- A member of a lane list bounds `maxLanePlusOne` from below. -/
theorem le_maxLanePlusOne {x : Nat} {l : List Nat} (h : x ∈ l) :
    x + 1 ≤ maxLanePlusOne l := by
  induction l with
  | nil => cases h
  | cons a l ih =>
    rcases List.mem_cons.mp h with rfl | hmem
    · exact le_max_left _ _
    · exact le_trans (ih hmem) (le_max_right _ _)

/-- `maxLanePlusOne` is the least upper bound of the successors. -/
theorem maxLanePlusOne_le {l : List Nat} {b : Nat} (h : ∀ x ∈ l, x + 1 ≤ b) :
    maxLanePlusOne l ≤ b := by
  induction l with
  | nil => exact Nat.zero_le _
  | cons a l ih =>
    exact max_le (h a (List.mem_cons_self _ _))
      (ih (fun x hx => h x (List.mem_cons_of_mem _ hx)))

/-- C9: calculateLayout lays out each input event exactly once, with its
original fields unchanged (the lane-stripped layout is a permutation of
the input), each lane is a natural number, and totalLanes equals the
maximum assigned lane plus one — zero when there are no events. -/
theorem calculateLayout_output_spec (events : List TimelineEvent) :
    ((calculateLayout events).1.map (fun x => x.toTimelineEvent)).Perm events ∧
    (calculateLayout events).2 =
      maxLanePlusOne ((calculateLayout events).1.map (fun x => x.lane)) := by
  constructor
  · have hmap := layoutAux_map_events
      (events.mergeSort (fun a b => a.start ≤ b.start)) [] []
    simp only [List.map_nil, List.nil_append] at hmap
    simp only [calculateLayout]
    rw [hmap]
    exact List.mergeSort_perm events _
  · obtain ⟨hA, hS⟩ := layoutAux_bound_surj
      (events.mergeSort (fun a b => a.start ≤ b.start)) [] []
      (by intro x hx; simp at hx)
      (by intro j hj; simp at hj)
    simp only [calculateLayout]
    apply le_antisymm
    · rcases Nat.eq_zero_or_pos
        (layoutAux [] [] (events.mergeSort (fun a b => a.start ≤ b.start))).2.length with
        hz | hpos
      · rw [hz]
        exact Nat.zero_le _
      · obtain ⟨x, hx, hxl⟩ := hS _ (Nat.sub_lt hpos Nat.one_pos)
        have hmem : x.lane ∈
            (layoutAux [] [] (events.mergeSort (fun a b => a.start ≤ b.start))).1.map
              (fun x => x.lane) :=
          List.mem_map.mpr ⟨x, hx, rfl⟩
        have := le_maxLanePlusOne hmem
        omega
    · apply maxLanePlusOne_le
      intro x hx
      obtain ⟨y, hy, rfl⟩ := List.mem_map.mp hx
      exact hA y hy

/-! ## C2: the lane count never exceeds the maximum pointwise overlap -/

/-- Placing an event can only raise the busy-lane count at an instant `t`
at or after the event's start by the event's own contribution. -/
theorem countBusy_place (s e t : Int) (h : s ≤ t) :
    ∀ lanes : List Int, countBusy t (placeInLanes s e lanes).2 ≤
      countBusy t lanes + (if t < e then 1 else 0) := by
  intro lanes
  induction lanes with
  | nil =>
    simp only [placeInLanes, countBusy, List.countP_cons, List.countP_nil]
    split_ifs with h1 h2 <;> simp_all
  | cons l ls ih =>
    by_cases hl : l ≤ s
    · simp only [placeInLanes, if_pos hl, countBusy, List.countP_cons] at *
      have hnl : ¬ t < l := by omega
      simp only [decide_eq_true_eq]
      split_ifs <;> simp_all
    · simp only [placeInLanes, if_neg hl, countBusy, List.countP_cons] at *
      split_ifs at * <;> omega

/-- When every lane is still busy past `s`, all lanes are busy at `s`. -/
theorem countBusy_all (s : Int) (lanes : List Int) (h : ∀ l ∈ lanes, s < l) :
    countBusy s lanes = lanes.length :=
  List.countP_eq_length.mpr (fun a ha => by simpa using h a ha)

/-- Appending one laid-out event adds its indicator to the cover count. -/
theorem countCoverL_append (t : Int) (layout : List LaidOutEvent) (a : LaidOutEvent) :
    countCoverL t (layout ++ [a]) =
      countCoverL t layout + (if a.start ≤ t ∧ t < a.«end» then 1 else 0) := by
  simp only [countCoverL, List.countP_append, List.countP_cons, List.countP_nil,
    Bool.and_eq_true, decide_eq_true_eq]
  split_ifs <;> simp_all

/-- The cover count never drops when the layout grows. -/
theorem countCoverL_le_append (t : Int) (layout : List LaidOutEvent) (a : LaidOutEvent) :
    countCoverL t layout ≤ countCoverL t (layout ++ [a]) := by
  rw [countCoverL_append]
  split_ifs <;> omega

/-- Main induction for minimality: processing events in ascending start
order preserves both the busy-versus-cover bound and the existence of an
instant witnessing the current lane count. -/
theorem layoutAux_minimal (rest : List TimelineEvent) :
    ∀ (layout : List LaidOutEvent) (lanes : List Int),
    (∀ ev ∈ rest, ev.start < ev.«end») →
    rest.Pairwise (fun a b => a.start ≤ b.start) →
    (∀ x ∈ layout, ∀ ev ∈ rest, x.start ≤ ev.start) →
    CoverBound layout lanes → LanesWitnessed layout lanes →
    LanesWitnessed (layoutAux layout lanes rest).1 (layoutAux layout lanes rest).2 := by
  induction rest with
  | nil =>
    intro layout lanes _ _ _ _ hK
    exact hK
  | cons ev rest ih =>
    intro layout lanes hse hsort hord hJ hK
    have hev : ev.start < ev.«end» := hse ev (List.mem_cons_self _ _)
    have hse' : ∀ e ∈ rest, e.start < e.«end» := fun e he => hse e (List.mem_cons_of_mem _ he)
    have hsort' : rest.Pairwise (fun a b => a.start ≤ b.start) := (List.pairwise_cons.mp hsort).2
    have hhead : ∀ e ∈ rest, ev.start ≤ e.start := (List.pairwise_cons.mp hsort).1
    rw [layoutAux_cons]
    -- shared facts about the updated state
    have hord' : ∀ x ∈ layout ++ [{ ev with lane := (placeInLanes ev.start ev.«end» lanes).1 }],
        ∀ e ∈ rest, x.start ≤ e.start := by
      intro x hx e he
      rcases List.mem_append.mp hx with hx | hx
      · exact hord x hx e (List.mem_cons_of_mem _ he)
      · simp only [List.mem_singleton] at hx
        subst hx
        simpa using hhead e he
    have hJ' : CoverBound
        (layout ++ [{ ev with lane := (placeInLanes ev.start ev.«end» lanes).1 }])
        (placeInLanes ev.start ev.«end» lanes).2 := by
      intro t ht
      have htev : ev.start ≤ t := by
        have := ht { ev with lane := (placeInLanes ev.start ev.«end» lanes).1 }
          (List.mem_append_right _ (List.mem_singleton_self _))
        simpa using this
      have htold : ∀ x ∈ layout, x.start ≤ t := fun x hx => ht x (List.mem_append_left _ hx)
      have h1 := countBusy_place ev.start ev.«end» t htev lanes
      have h2 := hJ t htold
      rw [countCoverL_append]
      simp only [laidOut_toTimelineEvent]
      have hcond : (if ev.start ≤ t ∧ t < ev.«end» then 1 else 0) =
          (if t < ev.«end» then 1 else 0) := by
        split_ifs <;> omega
      rw [hcond]
      omega
    have hK' : LanesWitnessed
        (layout ++ [{ ev with lane := (placeInLanes ev.start ev.«end» lanes).1 }])
        (placeInLanes ev.start ev.«end» lanes).2 := by
      rcases placeInLanes_cases ev.start ev.«end» lanes with ⟨hlt, _, hset⟩ | ⟨heq, hall, happ⟩
      · rcases hK with hnil | ⟨t0, hlen⟩
        · left
          rw [hset, hnil]
          rfl
        · right
          refine ⟨t0, ?_⟩
          rw [hset, List.length_set]
          exact le_trans hlen (countCoverL_le_append _ _ _)
      · right
        refine ⟨ev.start, ?_⟩
        have hbusy : countBusy ev.start lanes = lanes.length := countBusy_all _ _ hall
        have hcov : lanes.length ≤ countCoverL ev.start layout := by
          have hstarts : ∀ x ∈ layout, x.start ≤ ev.start :=
            fun x hx => hord x hx ev (List.mem_cons_self _ _)
          have := hJ ev.start hstarts
          omega
        rw [happ, List.length_append, List.length_singleton, countCoverL_append]
        simp only [laidOut_toTimelineEvent]
        rw [if_pos ⟨le_refl _, hev⟩]
        omega
    exact ih _ _ hse' hsort' hord' hJ' hK'

/-- The sorted event list is pairwise ordered by start. -/
theorem sortedEvents_pairwise (events : List TimelineEvent) :
    (events.mergeSort (fun a b => a.start ≤ b.start)).Pairwise
      (fun a b => a.start ≤ b.start) := by
  have h := @List.sorted_mergeSort TimelineEvent
    (fun a b : TimelineEvent => decide (a.start ≤ b.start))
    (fun a b c hab hbc => by
      simp only [decide_eq_true_eq] at *
      omega)
    (fun a b => by
      simp only [Bool.or_eq_true, decide_eq_true_eq]
      omega)
    events
  exact h.imp (fun hab => by simpa using hab)

/-- C2: for every collection of events each satisfying start < end, the
totalLanes computed by calculateLayout never exceeds the number of events
simultaneously alive at some instant — hence the greedy first-fit
assignment uses the minimum possible number of lanes, since any valid
assignment needs at least that many lanes at that instant. -/
theorem calculateLayout_minimal_lanes (events : List TimelineEvent)
    (h : ∀ ev ∈ events, ev.start < ev.«end») :
    ∃ t : Int, (calculateLayout events).2 ≤ countCover t events := by
  have hperm := List.mergeSort_perm events (fun a b : TimelineEvent => a.start ≤ b.start)
  have hse : ∀ ev ∈ events.mergeSort (fun a b => a.start ≤ b.start), ev.start < ev.«end» :=
    fun ev hev => h ev (hperm.mem_iff.mp hev)
  have hK := layoutAux_minimal (events.mergeSort (fun a b => a.start ≤ b.start)) [] []
    hse (sortedEvents_pairwise events)
    (by intro x hx; simp at hx)
    (by intro t _; simp [countBusy, countCoverL])
    (Or.inl rfl)
  have hmap := layoutAux_map_events (events.mergeSort (fun a b => a.start ≤ b.start)) [] []
  simp only [List.map_nil, List.nil_append] at hmap
  rcases hK with hnil | ⟨t, hlen⟩
  · refine ⟨0, ?_⟩
    simp only [calculateLayout]
    rw [hnil]
    exact Nat.zero_le _
  · refine ⟨t, ?_⟩
    have hcl : countCoverL t (layoutAux [] [] (events.mergeSort (fun a b => a.start ≤ b.start))).1 =
        countCover t events := by
      unfold countCoverL countCover
      rw [show (fun x : LaidOutEvent => decide (x.start ≤ t) && decide (t < x.«end»)) =
        ((fun x : TimelineEvent => decide (x.start ≤ t) && decide (t < x.«end»)) ∘
          (fun x : LaidOutEvent => x.toTimelineEvent)) from rfl]
      rw [← List.countP_map, hmap, hperm.countP_eq]
    simp only [calculateLayout]
    rw [← hcl]
    exact hlen

/-- C2 witness: two overlapping events satisfy the hypothesis; the
theorem yields an instant covered by at least totalLanes events. -/
theorem calculateLayout_minimal_lanes_witness :
    (∀ ev ∈ [sampleEvent "a" 0 4, sampleEvent "b" 2 6], ev.start < ev.«end») ∧
    (∃ t : Int, (calculateLayout [sampleEvent "a" 0 4, sampleEvent "b" 2 6]).2 ≤
      countCover t [sampleEvent "a" 0 4, sampleEvent "b" 2 6]) :=
  ⟨by decide, calculateLayout_minimal_lanes _ (by decide)⟩

end PromptStudio
